import Mathlib

/- Formal model of the github-recs recommendation service.

   The repository's own code is `src/app.go` (package `server`): it loads an
   item-factor matrix and an identifier list into a `Model` (`ReadModel`) and
   serves recommendations (`Model.Recommend`).  The numerical core it calls,
   `github.com/jbochi/facts/vectormodel`, and the `.npy` reader
   `github.com/kshedden/gonpy` are external packages whose sources are not part
   of this repository; they are modelled here from the specification
   (sections 4.2, 4.3 and 6), with exact rational arithmetic standing in for
   IEEE float64.  Everything in `app.go` itself is translated directly from the
   Go source. -/

namespace GithubRecs

/-- Error values produced by the load and recommend paths.  `app.go` returns
plain wrapped error strings; the spec (section 7) separates them into a load
taxonomy and a configuration taxonomy, which the constructors record. -/
inductive Err
  | loadError (msg : String)
  | configError (msg : String)
deriving DecidableEq

/-- Discriminator for the error taxonomy: `true` exactly on the load-error
constructor. -/
def Err.isLoadError : Err → Bool
  | Err.loadError _ => true
  | Err.configError _ => false

/-- Modelled from the spec: the `vectormodel.VectorModel` struct of the external
`github.com/jbochi/facts/vectormodel` package (spec sections 3 and 4).  It owns
the item-factor data (`x i` is the factor row of item `i`, meaningful for
`i < nDocs`, uniform dimension `nFactors`) and the two hyperparameters.  Scores
are modelled as exact rationals in place of float64. -/
structure VectorModel where
  nDocs : ℕ
  nFactors : ℕ
  x : ℕ → Fin nFactors → ℚ
  confidence : ℚ
  regularization : ℚ

/-- Modelled from the spec: the outer product `v vᵗ` of a factor row with
itself, the building block of the Gram matrix and of the per-request
correction term (spec section 4.2). -/
def outerSelf {F : ℕ} (v : Fin F → ℚ) : Matrix (Fin F) (Fin F) ℚ :=
  Matrix.of fun i j => v i * v j

/-- Modelled from the spec: the precomputed cross-product matrix
`G = XᵗX` over all item vectors (spec section 3). -/
def gram (vm : VectorModel) : Matrix (Fin vm.nFactors) (Fin vm.nFactors) ℚ :=
  ∑ i ∈ Finset.range vm.nDocs, outerSelf (vm.x i)

/-- Modelled from the spec: the coefficient matrix
`G + c·Σ_{i∈S} x_i x_iᵗ + λI` of the implicit-feedback linear system
(spec section 4.2). -/
def sysMatrix (vm : VectorModel) (S : Finset ℕ) :
    Matrix (Fin vm.nFactors) (Fin vm.nFactors) ℚ :=
  gram vm + vm.confidence • (∑ i ∈ S, outerSelf (vm.x i)) +
    vm.regularization • (1 : Matrix (Fin vm.nFactors) (Fin vm.nFactors) ℚ)

/-- Modelled from the spec: the right-hand side `c·Σ_{i∈S} x_i` of the
implicit-feedback linear system (spec section 4.2). -/
def rhsVec (vm : VectorModel) (S : Finset ℕ) : Fin vm.nFactors → ℚ :=
  vm.confidence • ∑ i ∈ S, vm.x i

/-- Exact inverse of a square rational matrix through the adjugate formula;
for an invertible matrix this is the true inverse, so applying it to the
right-hand side is the exact counterpart of the spec's Cholesky solve
(spec section 4.2). -/
def matInv {F : ℕ} (M : Matrix (Fin F) (Fin F) ℚ) : Matrix (Fin F) (Fin F) ℚ :=
  (M.det)⁻¹ • M.adjugate

/-- Modelled from the spec: the solved preference vector `u` of the
implicit-feedback solver (spec section 4.2). -/
def solveU (vm : VectorModel) (S : Finset ℕ) : Fin vm.nFactors → ℚ :=
  (matInv (sysMatrix vm S)).mulVec (rhsVec vm S)

/-- Modelled from the spec: the ranker's ordering on `(index, score)` pairs —
higher score first, and on an exact score tie the lower internal index first
(spec section 4.3). -/
def rankRel (p q : ℕ × ℚ) : Prop :=
  q.2 < p.2 ∨ (p.2 = q.2 ∧ p.1 ≤ q.1)

instance : DecidableRel rankRel := fun p q => by
  unfold rankRel
  infer_instance

/-- Modelled from the spec: the scored candidate pool of the ranker — every
index `i ∉ S` in `[0, nDocs)` paired with its score `u ⬝ x_i`
(spec section 4.3). -/
def candidates (vm : VectorModel) (S : Finset ℕ) : List (ℕ × ℚ) :=
  ((List.range vm.nDocs).filter fun i => decide (i ∉ S)).map
    fun i => (i, Matrix.dotProduct (solveU vm S) (vm.x i))

/-- Modelled from the spec: the ranker's output — candidates ordered by
`rankRel` (score descending, ties by lower index), truncated to the requested
count; a non-positive count yields the empty list (spec section 4.3).  The
spec's bounded-size heap selection is realised by a full stable sort followed
by truncation, which produces the same ordered output. -/
def recommendList (vm : VectorModel) (S : Finset ℕ) (n : ℤ) : List (ℕ × ℚ) :=
  (List.insertionSort rankRel (candidates vm S)).take n.toNat

/-- Modelled from the spec: `(*VectorModel).Recommend` of the external
vectormodel package — the solve-and-rank pipeline, a pure function of the
feedback set and the requested count; per-request conditions are never
propagated as errors (spec sections 4.3, 6 and 7). -/
def VectorModel.Recommend (vm : VectorModel) (seen : Finset ℕ) (n : ℤ) :
    Except Err (List (ℕ × ℚ)) :=
  Except.ok (recommendList vm seen n)

/-- Modelled from the spec: validation performed by
`vectormodel.NewVectorModel` at construction time — an invalid hyperparameter
(`F ≤ 0`, which over ℕ means a zero factor dimension, `c ≤ 0`, or `λ ≤ 0`)
fails with a configuration error before any request is served
(spec sections 4.2 and 7). -/
def NewVectorModel (nDocs nFactors : ℕ) (x : ℕ → Fin nFactors → ℚ)
    (confidence regularization : ℚ) : Except Err VectorModel :=
  if nFactors = 0 then
    Except.error (Err.configError "factor dimension must be positive")
  else if confidence ≤ 0 then
    Except.error (Err.configError "confidence must be positive")
  else if regularization ≤ 0 then
    Except.error (Err.configError "regularization must be positive")
  else
    Except.ok ⟨nDocs, nFactors, x, confidence, regularization⟩

/-- The `Model` struct of `src/app.go`: the vector model plus the
identifier list (`repositories`) and the identifier-to-index map
(`repositoryIDs`, a Go `map[string]int` modelled as a partial function). -/
structure Model where
  vm : VectorModel
  repositories : List String
  repositoryIDs : String → Option ℕ

/-- Modelled from the spec: the `item_factors.npy` artifact as surfaced by the
external gonpy reader — either the open or header read fails (`missing`), or
the float64 payload fails to parse (`corrupt`), or it yields a shape
`rows × cols` and the row-major factor rows (spec section 6). -/
inductive ArrayFile
  | missing
  | corrupt
  | ok (rows cols : ℕ) (x : ℕ → Fin cols → ℚ)

/-- The semantics of `bufio.Reader.ReadString('\n')` as used by `ReadModel`:
consume characters up to and including the first newline and return them
together with the unread remainder; reaching end of input without a newline is
the error case (in Go the partial data is returned with a non-nil `err`, which
`ReadModel` treats as failure). -/
def readString : List Char → Option (List Char × List Char)
  | [] => none
  | c :: rest =>
    if c = '\n' then some ([c], rest)
    else
      match readString rest with
      | none => none
      | some (line, r) => some (c :: line, r)

/-- The semantics of `strings.TrimRight(line, "\n")`: drop every trailing
newline character. -/
def trimNewline (l : List Char) : List Char :=
  (l.reverse.dropWhile fun c => c = '\n').reverse

/-- The read loop of `ReadModel`: read exactly `k` newline-terminated lines
(each trimmed of its trailing newlines), failing if the input runs out first;
any input left over after the `k`-th line is ignored. -/
def readLines : ℕ → List Char → Option (List String)
  | 0, _ => some []
  | k + 1, s =>
    match readString s with
    | none => none
    | some (line, rest) =>
      match readLines k rest with
      | none => none
      | some ls => some (String.mk (trimNewline line) :: ls)

/-- One `repositoryIDs[repo] = i` map store of `ReadModel`'s loop: a later
store for the same key overwrites any earlier one, exactly as a Go map
assignment does. -/
def mapInsert (m : String → Option ℕ) (key : String) (val : ℕ) :
    String → Option ℕ :=
  fun s => if s = key then some val else m s

/-- The map-building part of `ReadModel`'s loop, storing `a ↦ i`, `b ↦ i+1`,
... for the successive lines `a, b, ...`. -/
def buildMapFrom (m : String → Option ℕ) : ℕ → List String → (String → Option ℕ)
  | _, [] => m
  | i, a :: l => buildMapFrom (mapInsert m a i) (i + 1) l

/-- The identifier-to-index map `ReadModel` builds over the whole identifier
list, starting from the empty map and index `0`. -/
def buildMap (l : List String) : String → Option ℕ :=
  buildMapFrom (fun _ => none) 0 l

/-- The `ReadModel` function of `src/app.go`: fixed hyperparameters `c = 3.0` and
`λ = 0.001`, the factor array read through gonpy (its reported errors wrapped
as load errors), `NewVectorModel` construction, then `items.csv` opened and
read line by line — one identifier per factor row, each line trimmed of its
trailing newline, with both `repositories` and `repositoryIDs` filled by the
loop. -/
def ReadModel (arr : ArrayFile) (itemsFile : Option (List Char)) :
    Except Err Model :=
  match arr with
  | ArrayFile.missing => Except.error (Err.loadError "Unable to read data")
  | ArrayFile.corrupt => Except.error (Err.loadError "Unable to parse data")
  | ArrayFile.ok rows cols x =>
    match NewVectorModel rows cols x 3 (mkRat 1 1000) with
    | Except.error e => Except.error e
    | Except.ok vm =>
      match itemsFile with
      | none => Except.error (Err.loadError "Unable to open items.csv")
      | some content =>
        match readLines rows content with
        | none => Except.error (Err.loadError "Unable to read line of file")
        | some lines => Except.ok ⟨vm, lines, buildMap lines⟩

/-- The feedback-set resolution loop of `(*Model).Recommend` in `src/app.go`:
each caller-supplied identifier is looked up in `repositoryIDs`; hits are
added to the `seenDocs` set and misses are skipped. -/
def seenDocs (m : Model) (items : List String) : Finset ℕ :=
  items.foldl
    (fun s repo =>
      match m.repositoryIDs repo with
      | some id => insert id s
      | none => s)
    ∅

/-- The `(*Model).Recommend` method of `src/app.go`: resolve the identifiers, call the
vector model, and map each returned `(DocumentID, Score)` pair back to its
repository identifier. -/
def Model.Recommend (m : Model) (items : List String) (n : ℤ) :
    Except Err (List (String × ℚ)) :=
  match m.vm.Recommend (seenDocs m items) n with
  | Except.error e => Except.error e
  | Except.ok scores =>
    Except.ok (scores.map fun p => (m.repositories.getD p.1 "", p.2))

/-- A concrete one-column factor assignment used by the concrete load
scenarios below. -/
def X1 : ℕ → Fin 1 → ℚ :=
  fun i _ => (i : ℚ)

/-- The factor assignment of a zero-column array: each row is the empty
vector. -/
def X0 : ℕ → Fin 0 → ℚ :=
  fun _ i => i.elim0

/-- Concrete `items.csv` content `"a\na\n"`: the same identifier on two
different lines. -/
def dupChars : List Char :=
  ['a', '\n', 'a', '\n']

/-- Concrete `items.csv` content `"a\nb\n"`: two distinct identifiers. -/
def abChars : List Char :=
  ['a', '\n', 'b', '\n']

/-- The model a successful `ReadModel` call returns (a placeholder value on the
failure branches); lets a concrete successful load be named without spelling
out the resulting record. -/
def theModel (a : ArrayFile) (f : Option (List Char)) : Model :=
  match ReadModel a f with
  | Except.ok m => m
  | Except.error _ => ⟨⟨0, 0, fun _ _ => 0, 0, 0⟩, [], fun _ => none⟩

theorem buildMapFrom_append (m : String → Option ℕ) (i : ℕ) (l : List String)
    (a : String) :
    buildMapFrom m i (l ++ [a]) = mapInsert (buildMapFrom m i l) a (i + l.length) := by
  induction l generalizing m i with
  | nil => rfl
  | cons b l ih =>
    rw [List.cons_append]
    simp only [buildMapFrom, List.length_cons]
    rw [ih]
    have hn : i + 1 + l.length = i + (l.length + 1) := by omega
    rw [hn]

theorem buildMap_eq_last (id : String) :
    ∀ (l : List String) (j : ℕ), j < l.length → l.getD j "" = id →
      (∀ k, j < k → k < l.length → l.getD k "" ≠ id) → buildMap l id = some j := by
  intro l
  induction l using List.reverseRecOn with
  | nil =>
    intro j hj _ _
    exact absurd hj (Nat.not_lt_zero j)
  | append_singleton l a ih =>
    intro j hj hget hlast
    have hlen : (l ++ [a]).length = l.length + 1 := by simp
    have hgetlast : (l ++ [a]).getD l.length "" = a := by
      rw [List.getD_eq_getElem?_getD, List.getElem?_concat_length]
      rfl
    unfold buildMap
    rw [buildMapFrom_append]
    show (if id = a then some (0 + l.length) else buildMap l id) = some j
    by_cases hja : id = a
    · rw [if_pos hja]
      rcases Nat.lt_or_ge j l.length with hlt | hge
      · exact absurd (hgetlast.trans hja.symm)
          (hlast l.length hlt (by omega))
      · have : j = l.length := by omega
        rw [Nat.zero_add, this]
    · rw [if_neg hja]
      have hjne : j ≠ l.length := fun heq => hja (by rw [← hget, heq, hgetlast])
      have hjlt : j < l.length := by omega
      have hget' : l.getD j "" = id := by
        rw [List.getD_eq_getElem?_getD] at hget ⊢
        rwa [List.getElem?_append_left hjlt] at hget
      refine ih j hjlt hget' ?_
      intro k h1 h2
      have := hlast k h1 (by omega)
      rw [List.getD_eq_getElem?_getD, List.getElem?_append_left h2] at this
      rwa [List.getD_eq_getElem?_getD]

theorem buildMapFrom_lt (l : List String) :
    ∀ (m : String → Option ℕ) (i : ℕ), (∀ s v, m s = some v → v < i) →
      ∀ s v, buildMapFrom m i l s = some v → v < i + l.length := by
  induction l with
  | nil =>
    intro m i hm s v h
    have := hm s v h
    simpa using Nat.lt_of_lt_of_le this (Nat.le_add_right i 0)
  | cons b l ih =>
    intro m i hm s v h
    have hm' : ∀ s v, mapInsert m b i s = some v → v < i + 1 := by
      intro s v hs
      unfold mapInsert at hs
      by_cases hsb : s = b
      · rw [if_pos hsb] at hs
        cases hs
        omega
      · rw [if_neg hsb] at hs
        exact Nat.lt_succ_of_lt (hm s v hs)
    have := ih (mapInsert m b i) (i + 1) hm' s v h
    simp only [List.length_cons]
    omega

theorem buildMap_lt (l : List String) (s : String) (v : ℕ)
    (h : buildMap l s = some v) : v < l.length := by
  have := buildMapFrom_lt l (fun _ => none) 0
    (fun s v hs => absurd hs (by simp)) s v h
  simpa using this

theorem readLines_length :
    ∀ (k : ℕ) (s : List Char) (ls : List String),
      readLines k s = some ls → ls.length = k := by
  intro k
  induction k with
  | zero =>
    intro s ls h
    simp only [readLines] at h
    cases h
    rfl
  | succ k ih =>
    intro s ls h
    simp only [readLines] at h
    split at h
    next => cases h
    next line rest heq =>
      split at h
      next => cases h
      next ls' heq2 =>
        cases h
        simp [ih rest ls' heq2]

theorem readString_eq_none (s : List Char) :
    readString s = none ↔ '\n' ∉ s := by
  induction s with
  | nil => simp [readString]
  | cons c rest ih =>
    simp only [readString, List.mem_cons]
    by_cases hc : c = '\n'
    · rw [if_pos hc]
      simp [hc]
    · rw [if_neg hc]
      rcases hr : readString rest with - | ⟨line, r⟩
      · have h1 : '\n' ∉ rest := ih.mp hr
        have h2 : ¬('\n' = c) := fun h => hc h.symm
        simp [h1, h2]
      · have h1 : '\n' ∈ rest := by
          by_contra hmem
          rw [ih.mpr hmem] at hr
          cases hr
        simp [h1]

theorem readString_count (s : List Char) :
    ∀ line rest, readString s = some (line, rest) →
      s.count '\n' = rest.count '\n' + 1 := by
  induction s with
  | nil =>
    intro line rest h
    cases h
  | cons c s ih =>
    intro line rest h
    simp only [readString] at h
    by_cases hc : c = '\n'
    · rw [if_pos hc] at h
      cases h
      simp [hc, List.count_cons]
    · rw [if_neg hc] at h
      split at h
      next => cases h
      next line' r' heq =>
        cases h
        have hrec := ih line' rest heq
        rw [List.count_cons, if_neg (by simp [hc])]
        omega

theorem readLines_isSome (k : ℕ) :
    ∀ s : List Char, (readLines k s).isSome = true ↔ k ≤ s.count '\n' := by
  induction k with
  | zero =>
    intro s
    simp [readLines]
  | succ k ih =>
    intro s
    simp only [readLines]
    rcases hr : readString s with - | ⟨line, rest⟩
    · have h0 : s.count '\n' = 0 :=
        List.count_eq_zero.mpr ((readString_eq_none s).mp hr)
      simp [h0]
    · have hcount : s.count '\n' = rest.count '\n' + 1 :=
        readString_count s line rest hr
      have hrec := ih rest
      rcases hr2 : readLines k rest with - | ls
      · have hnot : ¬k ≤ rest.count '\n' := by
          rw [← hrec]
          simp [hr2]
        simp [hr2, hcount]; omega
      · have hyes : k ≤ rest.count '\n' := by
          rw [← hrec]
          simp [hr2]
        simp [hr2, hcount]; omega

theorem newVectorModel_zero (nD : ℕ) (x : ℕ → Fin 0 → ℚ)
    (c lam : ℚ) :
    NewVectorModel nD 0 x c lam =
      Except.error (Err.configError "factor dimension must be positive") := by
  unfold NewVectorModel
  rw [if_pos rfl]

theorem newVectorModel_eq (nD nF : ℕ) (x : ℕ → Fin nF → ℚ) (hF : nF ≠ 0) :
    NewVectorModel nD nF x 3 (mkRat 1 1000) =
      Except.ok ⟨nD, nF, x, 3, mkRat 1 1000⟩ := by
  unfold NewVectorModel
  rw [if_neg hF, if_neg (by decide), if_neg (by decide)]

theorem readModel_zero_cols (rows : ℕ) (x : ℕ → Fin 0 → ℚ)
    (f : Option (List Char)) :
    ReadModel (ArrayFile.ok rows 0 x) f =
      Except.error (Err.configError "factor dimension must be positive") := by
  cases f with
  | none =>
    show (match NewVectorModel rows 0 x 3 (mkRat 1 1000) with
      | Except.error e => Except.error e
      | Except.ok _ =>
        Except.error (Err.loadError "Unable to open items.csv")) = _
    rw [newVectorModel_zero]
  | some content =>
    show (match NewVectorModel rows 0 x 3 (mkRat 1 1000) with
      | Except.error e => Except.error e
      | Except.ok vm =>
        match readLines rows content with
        | none => Except.error (Err.loadError "Unable to read line of file")
        | some lines =>
          (Except.ok ⟨vm, lines, buildMap lines⟩ : Except Err Model)) = _
    rw [newVectorModel_zero]

theorem readModel_ok_some (rows cols : ℕ) (x : ℕ → Fin cols → ℚ)
    (content : List Char) (hc : cols ≠ 0) :
    ReadModel (ArrayFile.ok rows cols x) (some content) =
      match readLines rows content with
      | none => Except.error (Err.loadError "Unable to read line of file")
      | some lines =>
        Except.ok ⟨⟨rows, cols, x, 3, mkRat 1 1000⟩, lines, buildMap lines⟩ := by
  show (match NewVectorModel rows cols x 3 (mkRat 1 1000) with
    | Except.error e => Except.error e
    | Except.ok vm =>
      match readLines rows content with
      | none => Except.error (Err.loadError "Unable to read line of file")
      | some lines =>
        (Except.ok ⟨vm, lines, buildMap lines⟩ : Except Err Model)) = _
  rw [newVectorModel_eq rows cols x hc]

theorem readModel_ok_elim (a : ArrayFile) (f : Option (List Char)) (m : Model)
    (h : ReadModel a f = Except.ok m) :
    ∃ rows cols x content lines, a = ArrayFile.ok rows cols x ∧ 0 < cols ∧
      f = some content ∧ readLines rows content = some lines ∧
      m = ⟨⟨rows, cols, x, 3, mkRat 1 1000⟩, lines, buildMap lines⟩ := by
  cases a with
  | missing => cases h
  | corrupt => cases h
  | ok rows cols x =>
    by_cases hc : cols = 0
    · subst hc
      rw [readModel_zero_cols] at h
      cases h
    · cases f with
      | none =>
        have : ReadModel (ArrayFile.ok rows cols x) none =
            Except.error (Err.loadError "Unable to open items.csv") := by
          show (match NewVectorModel rows cols x 3 (mkRat 1 1000) with
            | Except.error e => Except.error e
            | Except.ok _ =>
              Except.error (Err.loadError "Unable to open items.csv")) = _
          rw [newVectorModel_eq rows cols x hc]
        rw [this] at h
        cases h
      | some content =>
        rw [readModel_ok_some rows cols x content hc] at h
        rcases hr : readLines rows content with - | lines
        · rw [hr] at h
          cases h
        · rw [hr] at h
          cases h
          exact ⟨rows, cols, x, content, lines, rfl,
            Nat.pos_of_ne_zero hc, rfl, hr, rfl⟩

theorem readModel_ok_inv (a : ArrayFile) (f : Option (List Char)) (m : Model)
    (h : ReadModel a f = Except.ok m) :
    m.repositoryIDs = buildMap m.repositories ∧
      m.vm.nDocs = m.repositories.length ∧
      m.vm.confidence = 3 ∧ m.vm.regularization = mkRat 1 1000 := by
  obtain ⟨rows, cols, x, content, lines, -, -, -, hlines, hm⟩ :=
    readModel_ok_elim a f m h
  subst hm
  exact ⟨rfl, (readLines_length rows content lines hlines).symm, rfl, rfl⟩

theorem readModel_error_classify (a : ArrayFile) (f : Option (List Char))
    (e : Err) (h : ReadModel a f = Except.error e) :
    (∃ s, e = Err.loadError s) ∨
      (e = Err.configError "factor dimension must be positive" ∧
        ∃ rows x, a = ArrayFile.ok rows 0 x) := by
  cases a with
  | missing =>
    cases h
    exact Or.inl ⟨_, rfl⟩
  | corrupt =>
    cases h
    exact Or.inl ⟨_, rfl⟩
  | ok rows cols x =>
    by_cases hc : cols = 0
    · subst hc
      rw [readModel_zero_cols] at h
      cases h
      exact Or.inr ⟨rfl, rows, x, rfl⟩
    · cases f with
      | none =>
        have : ReadModel (ArrayFile.ok rows cols x) none =
            Except.error (Err.loadError "Unable to open items.csv") := by
          show (match NewVectorModel rows cols x 3 (mkRat 1 1000) with
            | Except.error e => Except.error e
            | Except.ok _ =>
              Except.error (Err.loadError "Unable to open items.csv")) = _
          rw [newVectorModel_eq rows cols x hc]
        rw [this] at h
        cases h
        exact Or.inl ⟨_, rfl⟩
      | some content =>
        rw [readModel_ok_some rows cols x content hc] at h
        rcases hr : readLines rows content with - | lines
        · rw [hr] at h
          cases h
          exact Or.inl ⟨_, rfl⟩
        · rw [hr] at h
          cases h

theorem readModel_error_load (a : ArrayFile) (f : Option (List Char))
    (e : Err) (hpos : ∀ rows cols x, a = ArrayFile.ok rows cols x → 0 < cols)
    (h : ReadModel a f = Except.error e) :
    ∃ s, e = Err.loadError s := by
  rcases readModel_error_classify a f e h with h1 | ⟨-, rows, x, ha⟩
  · exact h1
  · exact absurd (hpos rows 0 x ha) (by omega)

theorem readModel_isOk_iff (a : ArrayFile) (f : Option (List Char)) :
    (ReadModel a f).isOk = true ↔
      ∃ rows cols x content, a = ArrayFile.ok rows cols x ∧ 0 < cols ∧
        f = some content ∧ rows ≤ content.count '\n' := by
  constructor
  · intro h
    have hok : ∃ m, ReadModel a f = Except.ok m := by
      rcases he : ReadModel a f with e | m
      · rw [he] at h
        cases h
      · exact ⟨m, rfl⟩
    obtain ⟨m, hm⟩ := hok
    obtain ⟨rows, cols, x, content, lines, ha, hcols, hf, hlines, -⟩ :=
      readModel_ok_elim a f m hm
    refine ⟨rows, cols, x, content, ha, hcols, hf, ?_⟩
    rw [← readLines_isSome, hlines]
    rfl
  · rintro ⟨rows, cols, x, content, rfl, hcols, rfl, hcount⟩
    rw [readModel_ok_some rows cols x content (by omega)]
    have hsome : (readLines rows content).isSome = true :=
      (readLines_isSome rows content).mpr hcount
    rcases hr : readLines rows content with - | lines
    · rw [hr] at hsome
      cases hsome
    · rfl

instance : IsTrans (ℕ × ℚ) rankRel := by
  constructor
  intro p q s hpq hqs
  rcases hpq with h1 | ⟨h1, h1'⟩
  · rcases hqs with h2 | ⟨h2, h2'⟩
    · exact Or.inl (lt_trans h2 h1)
    · exact Or.inl (h2 ▸ h1)
  · rcases hqs with h2 | ⟨h2, h2'⟩
    · exact Or.inl (by rw [h1]; exact h2)
    · exact Or.inr ⟨h1.trans h2, le_trans h1' h2'⟩

instance : IsTotal (ℕ × ℚ) rankRel := by
  constructor
  intro p q
  rcases lt_trichotomy p.2 q.2 with h | h | h
  · exact Or.inr (Or.inl h)
  · rcases le_total p.1 q.1 with hle | hle
    · exact Or.inl (Or.inr ⟨h, hle⟩)
    · exact Or.inr (Or.inr ⟨h.symm, hle⟩)
  · exact Or.inl (Or.inl h)

theorem length_filter_range (N : ℕ) (S : Finset ℕ) (hS : ∀ i ∈ S, i < N) :
    ((List.range N).filter fun i => decide (i ∉ S)).length = N - S.card := by
  induction N generalizing S with
  | zero =>
    have hS0 : S = ∅ := Finset.eq_empty_of_forall_not_mem fun i hi =>
      absurd (hS i hi) (Nat.not_lt_zero i)
    simp [hS0]
  | succ N ih =>
    rw [List.range_succ, List.filter_append, List.length_append]
    by_cases hN : N ∈ S
    · have hferase :
          ((List.range N).filter fun i => decide (i ∉ S)) =
            (List.range N).filter fun i => decide (i ∉ S.erase N) := by
        apply List.filter_congr
        intro a ha
        have haN : a < N := List.mem_range.mp ha
        simp only [decide_eq_decide]
        constructor
        · intro h hmem
          exact h (Finset.mem_of_mem_erase hmem)
        · intro h hmem
          exact h (Finset.mem_erase.mpr ⟨by omega, hmem⟩)
      have hcard : S.card ≤ N + 1 := by
        have hsub : S ⊆ Finset.range (N + 1) := fun i hi =>
          Finset.mem_range.mpr (hS i hi)
        simpa [Finset.card_range] using Finset.card_le_card hsub
      have hpos : 0 < S.card := Finset.card_pos.mpr ⟨N, hN⟩
      have herase : (S.erase N).card = S.card - 1 := Finset.card_erase_of_mem hN
      have hb : ∀ i ∈ S.erase N, i < N := by
        intro i hi
        have h1 := (Finset.mem_erase.mp hi).1
        have h2 := hS i (Finset.mem_of_mem_erase hi)
        omega
      have hlast : (List.filter (fun i => decide (i ∉ S)) [N]).length = 0 := by
        simp [hN]
      rw [hferase, ih (S.erase N) hb, herase, hlast]
      omega
    · have hb : ∀ i ∈ S, i < N := by
        intro i hi
        have h1 := hS i hi
        have h2 : i ≠ N := fun h => hN (h ▸ hi)
        omega
      have hlast : (List.filter (fun i => decide (i ∉ S)) [N]).length = 1 := by
        simp [hN]
      rw [ih S hb, hlast]
      have hcard : S.card ≤ N := by
        have hsub : S ⊆ Finset.range N := fun i hi =>
          Finset.mem_range.mpr (hb i hi)
        simpa [Finset.card_range] using Finset.card_le_card hsub
      omega

theorem candidates_length (vm : VectorModel) (S : Finset ℕ)
    (hS : ∀ i ∈ S, i < vm.nDocs) :
    (candidates vm S).length = vm.nDocs - S.card := by
  unfold candidates
  rw [List.length_map]
  exact length_filter_range vm.nDocs S hS

theorem recommendList_length (vm : VectorModel) (S : Finset ℕ) (n : ℤ)
    (hS : ∀ i ∈ S, i < vm.nDocs) :
    (recommendList vm S n).length = min n.toNat (vm.nDocs - S.card) := by
  unfold recommendList
  rw [List.length_take, List.length_insertionSort, candidates_length vm S hS]

theorem mem_candidates_of_mem_recommendList (vm : VectorModel) (S : Finset ℕ)
    (n : ℤ) (p : ℕ × ℚ) (hp : p ∈ recommendList vm S n) :
    p ∈ candidates vm S := by
  unfold recommendList at hp
  exact (List.mem_insertionSort rankRel).mp (List.mem_of_mem_take hp)

theorem seenDocs_fold_lt (m : Model) (B : ℕ)
    (hmap : ∀ s v, m.repositoryIDs s = some v → v < B) :
    ∀ (items : List String) (acc : Finset ℕ), (∀ i ∈ acc, i < B) →
      ∀ i ∈ items.foldl
        (fun s repo =>
          match m.repositoryIDs repo with
          | some id => insert id s
          | none => s) acc, i < B := by
  intro items
  induction items with
  | nil =>
    intro acc hacc i hi
    exact hacc i hi
  | cons r items ih =>
    intro acc hacc i hi
    rw [List.foldl_cons] at hi
    refine ih _ ?_ i hi
    rcases hres : m.repositoryIDs r with - | id
    · intro j hj
      exact hacc j hj
    · intro j hj
      rcases Finset.mem_insert.mp hj with rfl | hjacc
      · exact hmap r j hres
      · exact hacc j hjacc

theorem seenDocs_lt (m : Model) (B : ℕ)
    (hmap : ∀ s v, m.repositoryIDs s = some v → v < B) (items : List String) :
    ∀ i ∈ seenDocs m items, i < B := by
  intro i hi
  unfold seenDocs at hi
  exact seenDocs_fold_lt m B hmap items ∅ (by simp) i hi

/-- Claim C1: for every loaded model, every feedback set `S` of resolved
indices and every requested count `n`, the ordered result of the recommend
pipeline never contains an item whose index is in `S` — feedback items are
strictly excluded from the output. -/
theorem C1_feedback_excluded (vm : VectorModel) (S : Finset ℕ) (n : ℤ) :
    ((recommendList vm S n).all fun p => decide (p.1 ∉ S)) = true := by
  rw [List.all_eq_true]
  intro p hp
  simp only [decide_eq_true_eq]
  intro hmem
  have h2 := mem_candidates_of_mem_recommendList vm S n p hp
  unfold candidates at h2
  obtain ⟨i, hi, hpi⟩ := List.mem_map.mp h2
  have hfil := (List.mem_filter.mp hi).2
  have hnot : i ∉ S := of_decide_eq_true hfil
  apply hnot
  rw [← hpi] at hmem
  exact hmem

/-- Claim C2: for every model produced by `ReadModel` (with `N = nDocs`
items), every feedback set resolved from the caller's identifiers and every
requested count `n ≥ 0`, the returned sequence has length exactly
`min(n, N − |S|)`. -/
theorem C2_recommend_length (a : ArrayFile) (f : Option (List Char)) (m : Model)
    (items : List String) (n : ℤ) (h : ReadModel a f = Except.ok m)
    (_hn : 0 ≤ n) :
    ∃ l, m.Recommend items n = Except.ok l ∧
      l.length = min n.toNat (m.vm.nDocs - (seenDocs m items).card) := by
  obtain ⟨hmap, hlen, -, -⟩ := readModel_ok_inv a f m h
  refine ⟨(recommendList m.vm (seenDocs m items) n).map
    (fun p : ℕ × ℚ => (m.repositories.getD p.1 "", p.2)), rfl, ?_⟩
  rw [List.length_map]
  apply recommendList_length
  intro i hi
  rw [hlen]
  refine seenDocs_lt m m.repositories.length ?_ items i hi
  intro s v hv
  rw [hmap] at hv
  exact buildMap_lt m.repositories s v hv

/-- Claim C2 witness: a concrete two-item load with an empty feedback list and
`n = 1` instantiates the length law. -/
theorem C2_witness :
    ReadModel (ArrayFile.ok 2 1 X1) (some abChars) =
      Except.ok (theModel (ArrayFile.ok 2 1 X1) (some abChars)) ∧
    (0 : ℤ) ≤ 1 ∧
    ∃ l, (theModel (ArrayFile.ok 2 1 X1) (some abChars)).Recommend [] 1 =
        Except.ok l ∧
      l.length = min (1 : ℤ).toNat
        ((theModel (ArrayFile.ok 2 1 X1) (some abChars)).vm.nDocs -
          (seenDocs (theModel (ArrayFile.ok 2 1 X1) (some abChars)) []).card) :=
  ⟨rfl, by decide,
    C2_recommend_length (ArrayFile.ok 2 1 X1) (some abChars) _ [] 1 rfl
      (by decide)⟩

/-- Claim C4: the recommend pipeline is deterministic — it is a pure function
of the resolved feedback set and the count, and whenever two returned items
carry exactly equal scores the one with the lower internal index is ordered
first, which pins down the output ordering completely. -/
theorem C4_deterministic_tie_break (vm : VectorModel) (S : Finset ℕ) (n : ℤ) :
    (∀ S' n', S' = S → n' = n →
      recommendList vm S' n' = recommendList vm S n) ∧
    (recommendList vm S n).Pairwise (fun p q => p.2 = q.2 → p.1 < q.1) := by
  constructor
  · intro S' n' h1 h2
    rw [h1, h2]
  · have hsorted :
        (List.insertionSort rankRel (candidates vm S)).Pairwise rankRel :=
      List.sorted_insertionSort rankRel (candidates vm S)
    have htake : (recommendList vm S n).Pairwise rankRel :=
      List.Pairwise.sublist (List.take_sublist _ _) hsorted
    have hmapfst : ((candidates vm S).map Prod.fst) =
        (List.range vm.nDocs).filter fun i => decide (i ∉ S) := by
      unfold candidates
      rw [List.map_map]
      exact List.map_id' _
    have hnodup0 : ((candidates vm S).map Prod.fst).Nodup := by
      rw [hmapfst]
      exact (List.nodup_range vm.nDocs).filter _
    have hperm :
        List.Perm ((List.insertionSort rankRel (candidates vm S)).map Prod.fst)
          ((candidates vm S).map Prod.fst) :=
      (List.perm_insertionSort rankRel _).map Prod.fst
    have hnodup1 :
        ((List.insertionSort rankRel (candidates vm S)).map Prod.fst).Nodup :=
      hperm.nodup_iff.mpr hnodup0
    have hnodup2 : ((recommendList vm S n).map Prod.fst).Nodup :=
      List.Nodup.sublist ((List.take_sublist _ _).map Prod.fst) hnodup1
    have hpairne : (recommendList vm S n).Pairwise fun p q => p.1 ≠ q.1 :=
      List.pairwise_map.mp hnodup2
    refine (htake.and hpairne).imp ?_
    intro p q hpq heq
    rcases hpq.1 with hlt | ⟨-, hle⟩
    · rw [heq] at hlt
      exact absurd hlt (lt_irrefl _)
    · exact lt_of_le_of_ne hle hpq.2

/-- Claim C4 witness: the determinism part instantiated at a concrete model,
feedback set and count. -/
theorem C4_witness :
    recommendList ⟨1, 1, fun _ _ => 1, 3, 1⟩ ∅ 1 =
      recommendList ⟨1, 1, fun _ _ => 1, 3, 1⟩ ∅ 1 :=
  (C4_deterministic_tie_break ⟨1, 1, fun _ _ => 1, 3, 1⟩ ∅ 1).1 ∅ 1 rfl rfl

/-- Claim C8: with an empty resolved feedback set the solved preference vector
`u` is the zero vector, and consequently every recommended item's score
`u ⬝ x_i` is `0`. -/
theorem C8_empty_feedback_zero (vm : VectorModel) (n : ℤ) :
    solveU vm ∅ = 0 ∧
    ((recommendList vm ∅ n).all fun p => decide (p.2 = 0)) = true := by
  have hu : solveU vm ∅ = 0 := by
    unfold solveU rhsVec
    rw [Finset.sum_empty, smul_zero, Matrix.mulVec_zero]
  refine ⟨hu, ?_⟩
  rw [List.all_eq_true]
  intro p hp
  simp only [decide_eq_true_eq]
  have h2 := mem_candidates_of_mem_recommendList vm ∅ n p hp
  unfold candidates at h2
  obtain ⟨i, -, hpi⟩ := List.mem_map.mp h2
  rw [← hpi]
  show Matrix.dotProduct (solveU vm ∅) (vm.x i) = 0
  rw [hu, Matrix.zero_dotProduct]

/-- Claim C9: the recommend call depends only on the set of successfully
resolved identifiers — any two identifier lists resolving to the same index
set (whatever their order, duplicates or interleaved unresolvable entries)
give identical results for the same count. -/
theorem C9_depends_on_resolved_set (m : Model) (items1 items2 : List String)
    (n : ℤ) (h : seenDocs m items1 = seenDocs m items2) :
    m.Recommend items1 n = m.Recommend items2 n := by
  unfold Model.Recommend
  rw [h]

/-- Claim C9 witness: the duplicate list and the list with an unresolvable
identifier interleaved resolve to the same set on a concrete loaded model,
so their recommendations coincide. -/
theorem C9_witness :
    (theModel (ArrayFile.ok 2 1 X1) (some abChars)).Recommend ["a", "a"] 10 =
      (theModel (ArrayFile.ok 2 1 X1) (some abChars)).Recommend ["a", "zzz"] 10 :=
  C9_depends_on_resolved_set (theModel (ArrayFile.ok 2 1 X1) (some abChars))
    ["a", "a"] ["a", "zzz"] 10 (by decide)

/-- Claim C7: an input identifier that the store cannot resolve is dropped
silently — it contributes nothing to the feedback set, leaves the result
unchanged, and never makes the call return an error. -/
theorem C7_unresolved_dropped (m : Model) (pre post : List String) (x : String)
    (n : ℤ) (hx : m.repositoryIDs x = none) :
    seenDocs m (pre ++ x :: post) = seenDocs m (pre ++ post) ∧
    m.Recommend (pre ++ x :: post) n = m.Recommend (pre ++ post) n ∧
    ∃ l, m.Recommend (pre ++ x :: post) n = Except.ok l := by
  have hseen : seenDocs m (pre ++ x :: post) = seenDocs m (pre ++ post) := by
    unfold seenDocs
    rw [List.foldl_append, List.foldl_append, List.foldl_cons]
    simp only [hx]
  refine ⟨hseen, ?_, ?_⟩
  · unfold Model.Recommend
    rw [hseen]
  · exact ⟨_, rfl⟩

/-- Claim C7 witness: on a concrete loaded model the unresolvable identifier
`"zzz"` is dropped from the feedback list without error. -/
theorem C7_witness :
    seenDocs (theModel (ArrayFile.ok 2 1 X1) (some abChars)) (["a"] ++ "zzz" :: []) =
      seenDocs (theModel (ArrayFile.ok 2 1 X1) (some abChars)) (["a"] ++ []) ∧
    (theModel (ArrayFile.ok 2 1 X1) (some abChars)).Recommend
        (["a"] ++ "zzz" :: []) 10 =
      (theModel (ArrayFile.ok 2 1 X1) (some abChars)).Recommend (["a"] ++ []) 10 ∧
    ∃ l, (theModel (ArrayFile.ok 2 1 X1) (some abChars)).Recommend
        (["a"] ++ "zzz" :: []) 10 = Except.ok l :=
  C7_unresolved_dropped (theModel (ArrayFile.ok 2 1 X1) (some abChars))
    ["a"] [] "zzz" 10 (by decide)

/-- Claim C5: when the identifier file holds the same identifier on two
different lines `i < j` (with `j` its last occurrence), the identifier-to-index
map built by the load maps that identifier to the later index `j` — each later
occurrence overwrites the earlier mapping. -/
theorem C5_duplicate_later_wins (a : ArrayFile) (f : Option (List Char))
    (m : Model) (i j : ℕ) (id : String) (h : ReadModel a f = Except.ok m)
    (_hij : i < j) (hj : j < m.repositories.length)
    (_hgi : m.repositories.getD i "" = id)
    (hgj : m.repositories.getD j "" = id)
    (hlast : ∀ k, j < k → k < m.repositories.length →
      m.repositories.getD k "" ≠ id) :
    m.repositoryIDs id = some j := by
  obtain ⟨hmap, -, -, -⟩ := readModel_ok_inv a f m h
  rw [hmap]
  exact buildMap_eq_last id m.repositories j hj hgj hlast

/-- Claim C5 witness: loading a two-row array against the identifier file
`"a\na\n"` maps `"a"` to the later index `1`. -/
theorem C5_witness :
    (theModel (ArrayFile.ok 2 1 X1) (some dupChars)).repositoryIDs "a" =
      some 1 :=
  C5_duplicate_later_wins (ArrayFile.ok 2 1 X1) (some dupChars) _ 0 1 "a" rfl
    (by decide) (by decide) (by decide) (by decide)
    (fun k h1 h2 => by
      have hlen : (theModel (ArrayFile.ok 2 1 X1)
          (some dupChars)).repositories.length = 2 := by decide
      omega)

/-- Claim C6 counterexample: the claimed round trip
`lookup(identifier_at(i)) = i` fails on a successfully loaded model whose
identifier file repeats `"a"` — at index `0` the lookup returns the later
index `1`, not `0`. -/
theorem C6_counterexample :
    ReadModel (ArrayFile.ok 2 1 X1) (some dupChars) =
      Except.ok (theModel (ArrayFile.ok 2 1 X1) (some dupChars)) ∧
    (theModel (ArrayFile.ok 2 1 X1) (some dupChars)).repositoryIDs
        ((theModel (ArrayFile.ok 2 1 X1) (some dupChars)).repositories.getD 0 "")
      ≠ some 0 :=
  ⟨rfl, by decide⟩

/-- Claim C6 (amended): for every successfully loaded model whose identifier
list contains no duplicates, looking up the identifier stored at any position
`i` returns `i` — the identifier-index mapping round-trips. -/
theorem C6_roundtrip_of_nodup (a : ArrayFile) (f : Option (List Char))
    (m : Model) (h : ReadModel a f = Except.ok m)
    (hnd : m.repositories.Nodup) (i : ℕ) (hi : i < m.repositories.length) :
    m.repositoryIDs (m.repositories.getD i "") = some i := by
  obtain ⟨hmap, -, -, -⟩ := readModel_ok_inv a f m h
  rw [hmap]
  refine buildMap_eq_last _ m.repositories i hi rfl ?_
  intro k h1 h2 hk
  have hgk : m.repositories.getD k "" = m.repositories[k] :=
    List.getD_eq_getElem m.repositories "" h2
  have hgi : m.repositories.getD i "" = m.repositories[i] :=
    List.getD_eq_getElem m.repositories "" hi
  rw [hgk, hgi] at hk
  have : k = i := (List.Nodup.getElem_inj_iff hnd).mp hk
  omega

/-- Claim C6 witness for the amended statement: a duplicate-free load
round-trips at index `0`. -/
theorem C6_witness :
    (theModel (ArrayFile.ok 2 1 X1) (some abChars)).repositoryIDs
        ((theModel (ArrayFile.ok 2 1 X1) (some abChars)).repositories.getD 0 "")
      = some 0 :=
  C6_roundtrip_of_nodup (ArrayFile.ok 2 1 X1) (some abChars) _ rfl (by decide)
    0 (by decide)

/-- Claim C3 counterexample: the load is claimed to fail exactly when the
identifier count differs from the row count, but a one-row array loaded
against the two-line identifier file `"a\nb\n"` succeeds — the surplus line is
silently ignored. -/
theorem C3_counterexample :
    (ReadModel (ArrayFile.ok 1 1 X1) (some abChars)).isOk = true ∧
    abChars.count '\n' = 2 ∧ (2 : ℕ) ≠ 1 :=
  ⟨by decide, by decide, by decide⟩

/-- Claim C3 (amended): loading succeeds exactly when the factor array is
present and well formed with a positive factor dimension, the identifier file
is present, and the identifier file contains at least as many
newline-terminated lines as the array has rows (so an `N−1`-line file against
an `N`-row array fails rather than truncating or padding, while surplus lines
are ignored); every failure is a load error except for a zero-column array,
which fails with the spec's `F ≤ 0` configuration error. -/
theorem C3_load_failure_characterization (a : ArrayFile)
    (f : Option (List Char)) :
    ((ReadModel a f).isOk = true ↔
      ∃ rows cols x content, a = ArrayFile.ok rows cols x ∧ 0 < cols ∧
        f = some content ∧ rows ≤ content.count '\n') ∧
    (∀ e, ReadModel a f = Except.error e →
      (∃ s, e = Err.loadError s) ∨
        (e = Err.configError "factor dimension must be positive" ∧
          ∃ rows x, a = ArrayFile.ok rows 0 x)) :=
  ⟨readModel_isOk_iff a f, fun e h => readModel_error_classify a f e h⟩

/-- Claim C3 witness for the amended statement: a matching-count
positive-dimension load succeeds, and a missing-array load fails with a load
error. -/
theorem C3_witness :
    (ReadModel (ArrayFile.ok 2 1 X1) (some abChars)).isOk = true ∧
    ((∃ s, Err.loadError "Unable to read data" = Err.loadError s) ∨
      (Err.loadError "Unable to read data" =
          Err.configError "factor dimension must be positive" ∧
        ∃ rows x, ArrayFile.missing = ArrayFile.ok rows 0 x)) :=
  ⟨(C3_load_failure_characterization (ArrayFile.ok 2 1 X1)
      (some abChars)).1.mpr ⟨2, 1, X1, abChars, rfl, by decide, rfl, by decide⟩,
    (C3_load_failure_characterization ArrayFile.missing none).2 _ rfl⟩

/-- Claim C10 counterexample: the claim that any error `ReadModel` returns is
a load error fails at a concrete input — a zero-column factor array reaches
`NewVectorModel`, whose spec-mandated `F ≤ 0` check returns a configuration
error that `ReadModel` propagates unwrapped. -/
theorem C10_counterexample :
    ReadModel (ArrayFile.ok 1 0 X0) (some dupChars) =
      Except.error (Err.configError "factor dimension must be positive") ∧
    (Err.configError "factor dimension must be positive").isLoadError =
      false :=
  ⟨readModel_zero_cols 1 X0 (some dupChars), rfl⟩

/-- Claim C10 (amended): the hyperparameters are not caller-configurable —
every model `ReadModel` constructs carries confidence `c = 3` and
regularization `λ = 0.001`, the hyperparameter configuration-error conditions
`λ ≤ 0` and `c ≤ 0` are unreachable on every load path, and whenever the
factor array has a positive factor dimension any error `ReadModel` returns is
a load error (a zero-column array instead surfaces the spec's `F ≤ 0`
configuration error). -/
theorem C10_fixed_hyperparameters (a : ArrayFile) (f : Option (List Char)) :
    (∀ m, ReadModel a f = Except.ok m →
      m.vm.confidence = 3 ∧ m.vm.regularization = 1 / 1000) ∧
    (∀ e, ReadModel a f = Except.error e →
      e ≠ Err.configError "confidence must be positive" ∧
      e ≠ Err.configError "regularization must be positive") ∧
    (∀ e, ReadModel a f = Except.error e →
      (∀ rows cols x, a = ArrayFile.ok rows cols x → 0 < cols) →
      ∃ s, e = Err.loadError s) := by
  refine ⟨?_, ?_, ?_⟩
  · intro m h
    obtain ⟨-, -, hc, hr⟩ := readModel_ok_inv a f m h
    refine ⟨hc, ?_⟩
    rw [hr]
    norm_num [Rat.mkRat_eq_div]
  · intro e h
    rcases readModel_error_classify a f e h with ⟨s, rfl⟩ | ⟨rfl, -⟩
    · exact ⟨fun heq => Err.noConfusion heq, fun heq => Err.noConfusion heq⟩
    · exact ⟨by decide, by decide⟩
  · intro e h hpos
    exact readModel_error_load a f e hpos h

/-- Claim C10 witness: a concrete successful load carries the fixed
hyperparameters, and a concrete failed positive-dimension load reports a load
error that is no hyperparameter configuration error. -/
theorem C10_witness :
    ((theModel (ArrayFile.ok 2 1 X1) (some abChars)).vm.confidence = 3 ∧
      (theModel (ArrayFile.ok 2 1 X1) (some abChars)).vm.regularization =
        1 / 1000) ∧
    (Err.loadError "Unable to read data" ≠
        Err.configError "confidence must be positive" ∧
      Err.loadError "Unable to read data" ≠
        Err.configError "regularization must be positive") ∧
    (∃ s, Err.loadError "Unable to read data" = Err.loadError s) :=
  ⟨(C10_fixed_hyperparameters (ArrayFile.ok 2 1 X1) (some abChars)).1 _ rfl,
    (C10_fixed_hyperparameters ArrayFile.missing none).2.1 _ rfl,
    (C10_fixed_hyperparameters ArrayFile.missing none).2.2 _ rfl
      (fun _ _ _ h => ArrayFile.noConfusion h)⟩

end GithubRecs
